import Mathlib

/-!
Shallow embedding of the enrollment-aggregation core of `src/app.py`
(`transform_data`, `get_students_by_class`, `display_grade_records`).

Modelling conventions:
* A source row (one element of `df.to_dicts()`) is a `Row`; every column is
  present and holds either a string or Python `None`, modelled as
  `Option String` (`none` = Python `None`).
* Python `str(v)` on such a value is `pyStr` (`str(None) = "None"`), and
  `.strip()` is `pyStrip` (ASCII whitespace).
* `pd.to_datetime(s, dayfirst=True, errors="coerce")` is an arbitrary
  parameter `parse : String → Option Nat`: `some t` is a `pd.Timestamp`
  (totally ordered), `none` is `pd.NaT`.  `pd.to_datetime(None, …)` is `NaT`,
  so the enrollment's parsed date is `r.start_date.bind parse`.
* `pd.NaT` is truthy in Python, so `x.get("parsed_start") or pd.Timestamp.min`
  always yields `parsed_start` itself; the fallback `pd.Timestamp.min` is
  dead.  Ordering comparisons involving `NaT` all return `False` (`ltKey`).
* The Python dict `students` (insertion ordered, one entry per key) is an
  association list `List (String × StudentB)`; the working set
  `enrollment_keys` is the list of its members in first-seen order (only
  membership is ever used).
* `list.sort(key=…, reverse=True)` is modelled as `pySortDesc`: reverse the
  list, stable ascending sort, reverse again (CPython's implementation of
  `reverse=True`), with the stable sort taken to be `List.mergeSort`.  For a
  consistent comparison this is exactly CPython's semantics (a stable sort's
  output is unique); when `NaT` keys make the comparison inconsistent,
  CPython's exact output is implementation defined and the model commits to
  the stable-merge-sort behaviour.
* `json.loads` is an arbitrary parameter `jsonParse`; `none` means it raises
  `json.JSONDecodeError`.  `display_grade_records` returns
  `Except PyRuntimeError GradeOutput`: `.error` models an exception escaping
  the function, `.ok` a normal return describing what was rendered.
-/

/-- Python `str(v)` for a column value that is a string or `None`. -/
def pyStr : Option String → String
  | none => "None"
  | some s => s

/-- Whitespace as stripped by Python `str.strip()` (ASCII part). -/
def isPySpace (c : Char) : Bool :=
  c == ' ' || c == '\t' || c == '\n' || c == '\r' || c == '\x0b' || c == '\x0c'

/-- Python `s.strip()`. -/
def pyStrip (s : String) : String :=
  ⟨((s.data.dropWhile isPySpace).reverse.dropWhile isPySpace).reverse⟩

/-- One flat input row, with the columns `transform_data` reads.
`none` is Python `None`; the columns are always present in `df.to_dicts()`. -/
structure Row where
  ten : Option String
  dienThoai : Option String
  ngaySinh : Option String
  ghiChu : Option String
  class_id : Option String
  tenLop : Option String
  start_date : Option String
  end_date : Option String
  daThanhToan : Option String
  grades : Option String
  stt : Option String
deriving DecidableEq, Repr

/-- `student_name = str(row.get("Tên", "")).strip()`. -/
def rowName (r : Row) : String := pyStrip (pyStr r.ten)

/-- The dedup key
`(str(row.get("class_id","")), str(row.get("Tên Lớp","")), str(row.get("start_date","")), str(row.get("end_date","")))`
— stringified, not stripped. -/
def rowKey (r : Row) : String × String × String × String :=
  (pyStr r.class_id, pyStr r.tenLop, pyStr r.start_date, pyStr r.end_date)

/-- One enrollment record as appended to `"Lịch sử học"`, still carrying the
auxiliary `parsed_start` used for sorting. -/
structure EnrollmentB where
  stt : Option String
  khoaHoc : String
  lop : Option String
  tuNgay : Option String
  denNgay : Option String
  daThanhToan : String
  grades : Option String
  parsed_start : Option Nat
deriving DecidableEq, Repr

/-- One enrollment record after finalization (`parsed_start` popped). -/
structure Enrollment where
  stt : Option String
  khoaHoc : String
  lop : Option String
  tuNgay : Option String
  denNgay : Option String
  daThanhToan : String
  grades : Option String
deriving DecidableEq, Repr

/-- Builds the enrollment dict appended for a row: raw values for
`"Lớp"`, `"Từ ngày"`, `"Đến ngày"`, `"grades"` and `"STT"`, stringified
`"Khóa Học"`, stripped stringified `"Đã thanh toán"`, and
`parsed_start = pd.to_datetime(row.get("start_date",""), dayfirst=True, errors="coerce")`
(`NaT`, i.e. `none`, when the input is `None` or fails to parse). -/
def mkEnrollment (parse : String → Option Nat) (r : Row) : EnrollmentB :=
  { stt := r.stt
    khoaHoc := pyStr r.class_id
    lop := r.tenLop
    tuNgay := r.start_date
    denNgay := r.end_date
    daThanhToan := pyStrip (pyStr r.daThanhToan)
    grades := r.grades
    parsed_start := r.start_date.bind parse }

/-- A student's entry while aggregation runs: personal fields, the growing
history and the seen dedup keys. -/
structure StudentB where
  hoTen : String
  dienThoai : String
  ngaySinh : String
  ghiChu : String
  hist : List EnrollmentB
  keys : List (String × String × String × String)
deriving DecidableEq, Repr

/-- A finalized student profile. -/
structure Student where
  hoTen : String
  dienThoai : String
  ngaySinh : String
  ghiChu : String
  hist : List Enrollment
deriving DecidableEq, Repr

/-- The fresh profile created when a name is first seen: this row's stripped
personal fields, empty history, empty key set. -/
def mkStudent (name : String) (r : Row) : StudentB :=
  { hoTen := name
    dienThoai := pyStrip (pyStr r.dienThoai)
    ngaySinh := pyStrip (pyStr r.ngaySinh)
    ghiChu := pyStrip (pyStr r.ghiChu)
    hist := []
    keys := [] }

/-- Dict lookup on an association list (first entry with the key). -/
def lookupA {α : Type} : List (String × α) → String → Option α
  | [], _ => none
  | p :: rest, k => if p.1 = k then some p.2 else lookupA rest k

/-- Python `name in dict`. -/
def hasKeyA {α : Type} (l : List (String × α)) (k : String) : Bool :=
  (lookupA l k).isSome

/-- In-place mutation of the entry under a key (first entry with the key). -/
def updateA {α : Type} : List (String × α) → String → (α → α) → List (String × α)
  | [], _, _ => []
  | p :: rest, k, f => if p.1 = k then (p.1, f p.2) :: rest else p :: updateA rest k f

/-- The dedup-and-append part of the loop body: skip if the row's key was
seen, otherwise record the key and append the enrollment. -/
def addEnroll (parse : String → Option Nat) (r : Row) (s : StudentB) : StudentB :=
  if rowKey r ∈ s.keys then s
  else { s with keys := s.keys ++ [rowKey r], hist := s.hist ++ [mkEnrollment parse r] }

/-- One iteration of the `for row in rows` loop of `transform_data`: skip
blank names, register the student if new, then dedup and append. -/
def step (parse : String → Option Nat) (st : List (String × StudentB)) (r : Row) :
    List (String × StudentB) :=
  let name := rowName r
  if name = "" then st
  else
    let st1 := if hasKeyA st name then st else st ++ [(name, mkStudent name r)]
    updateA st1 name (addEnroll parse r)

/-- The state after the main loop of `transform_data`. -/
def aggregateB (parse : String → Option Nat) (rows : List Row) :
    List (String × StudentB) :=
  rows.foldl (step parse) []

/-- Sort key of an enrollment: `x.get("parsed_start") or pd.Timestamp.min`.
Both a `Timestamp` and `NaT` are truthy, so the `or` always yields
`parsed_start` itself and the `Timestamp.min` fallback is dead code. -/
def sortKey (e : EnrollmentB) : Option Nat := e.parsed_start

/-- Python `<` on sort keys: ordering comparisons involving `NaT` are all
`False`. -/
def ltKey : Option Nat → Option Nat → Bool
  | some a, some b => a < b
  | _, _ => false

/-- The "may `a` stay before `b`" predicate of a stable ascending sort driven
by `ltKey`: `a` stays unless `b < a`. -/
def leKey (a b : Option Nat) : Bool := ! ltKey b a

/-- Comparison on enrollments used by the history sort. -/
def leE (a b : EnrollmentB) : Bool := leKey (sortKey a) (sortKey b)

/-- `lst.sort(key=…, reverse=True)`: CPython reverses, sorts ascending with a
stable sort, and reverses again. -/
def pySortDesc (l : List EnrollmentB) : List EnrollmentB :=
  (l.reverse.mergeSort leE).reverse

/-- `enrollment.pop("parsed_start", None)`. -/
def dropParsed (e : EnrollmentB) : Enrollment :=
  { stt := e.stt
    khoaHoc := e.khoaHoc
    lop := e.lop
    tuNgay := e.tuNgay
    denNgay := e.denNgay
    daThanhToan := e.daThanhToan
    grades := e.grades }

/-- The finalization pass over one student: sort the history most recent
first, pop `parsed_start`, pop `enrollment_keys`. -/
def finalizeStudent (s : StudentB) : Student :=
  { hoTen := s.hoTen
    dienThoai := s.dienThoai
    ngaySinh := s.ngaySinh
    ghiChu := s.ghiChu
    hist := (pySortDesc s.hist).map dropParsed }

/-- `transform_data`: aggregate all rows, then finalize every student. -/
def transform_data (parse : String → Option Nat) (rows : List Row) :
    List (String × Student) :=
  (aggregateB parse rows).map (fun p => (p.1, finalizeStudent p.2))

/-- `enroll.get("Lớp", "") == selected_class` — Python `None == s` is `False`. -/
def matchesClass (c : String) (e : Enrollment) : Bool :=
  match e.lop with
  | some s => s == c
  | none => false

/-- `get_students_by_class`: keep each student whose filtered history is
non-empty, with the history replaced by the filtered one. -/
def get_students_by_class (students : List (String × Student)) (c : String) :
    List (String × Student) :=
  students.filterMap fun p =>
    let fe := p.2.hist.filter (matchesClass c)
    if fe.isEmpty then none
    else some (p.1,
      { hoTen := p.2.hoTen
        dienThoai := p.2.dienThoai
        ngaySinh := p.2.ngaySinh
        ghiChu := p.2.ghiChu
        hist := fe })

/-- One grade record as decoded from the `grades` JSON payload:
`record.get("grade_type", …)` defaults when the field is absent, and the
components are the pairs of `components.items()` in decode order. -/
structure GradeRec where
  grade_type : Option String
  components : List (String × String)
deriving DecidableEq, Repr

/-- What `display_grade_records` renders for one grade record. -/
inductive RenderedGrade
  | table (gradeType : String) (rows : List (String × String))
  | noComponents (gradeType : String)
deriving DecidableEq, Repr

/-- Rendering of one record: header from
`record.get("grade_type", "Loại bảng điểm không xác định")`, then either the
component table or the "Không có thành phần bảng điểm." message. -/
def renderGrade (r : GradeRec) : RenderedGrade :=
  let gt := r.grade_type.getD "Loại bảng điểm không xác định"
  if r.components.isEmpty then .noComponents gt else .table gt r.components

/-- What one call of `display_grade_records` writes. -/
inductive GradeOutput
  | decodeError (payload : String)
  | noRecords
  | records (rs : List RenderedGrade)
deriving DecidableEq, Repr

/-- An exception escaping a rendering call. -/
inductive PyRuntimeError
  | nameError (name : String)
deriving DecidableEq, Repr

/-- `display_grade_records(grades_json_str)`.
The blank branch `if not grades_json_str or pd.isnull(grades_json_str)` fires
for `None` and for the empty string only (a whitespace-only string is truthy
and not null); its body writes the "no data" message and then executes the
statement `returna` — an undefined name, so the call raises `NameError`
instead of returning.  Otherwise `json.loads` either fails (the error is
written together with the payload and the function returns) or yields the
list of grade records, rendered one by one. -/
def display_grade_records (jsonParse : String → Option (List GradeRec))
    (g : Option String) : Except PyRuntimeError GradeOutput :=
  match g with
  | none => .error (.nameError "returna")
  | some s =>
    if s = "" then .error (.nameError "returna")
    else
      match jsonParse s with
      | none => .ok (.decodeError s)
      | some rs => if rs.isEmpty then .ok .noRecords else .ok (.records (rs.map renderGrade))

/-! ### Association-list (Python dict) lemmas -/

theorem lookupA_append_left {α : Type} {l l' : List (String × α)} {k : String} {v : α}
    (h : lookupA l k = some v) : lookupA (l ++ l') k = some v := by
  induction l with
  | nil => simp [lookupA] at h
  | cons p rest ih =>
    by_cases hp : p.1 = k
    · simpa [lookupA, hp] using h
    · simp only [lookupA, hp, if_false, List.cons_append] at h ⊢
      exact ih h

theorem lookupA_append_right {α : Type} {l : List (String × α)} {k : String}
    (h : lookupA l k = none) (l' : List (String × α)) :
    lookupA (l ++ l') k = lookupA l' k := by
  induction l with
  | nil => simp
  | cons p rest ih =>
    by_cases hp : p.1 = k
    · simp [lookupA, hp] at h
    · simp only [lookupA, hp, if_false, List.cons_append] at h ⊢
      exact ih h

theorem lookupA_eq_none_iff {α : Type} {l : List (String × α)} {k : String} :
    lookupA l k = none ↔ k ∉ l.map Prod.fst := by
  induction l with
  | nil => simp [lookupA]
  | cons p rest ih =>
    by_cases hp : p.1 = k
    · simp [lookupA, hp]
    · simp [lookupA, hp, ih, Ne.symm hp]

theorem map_fst_updateA {α : Type} (l : List (String × α)) (k : String) (f : α → α) :
    (updateA l k f).map Prod.fst = l.map Prod.fst := by
  induction l with
  | nil => simp [updateA]
  | cons p rest ih =>
    by_cases hp : p.1 = k
    · simp [updateA, hp]
    · simp [updateA, hp, ih]

theorem updateA_of_lookup_none {α : Type} {l : List (String × α)} {k : String}
    (h : lookupA l k = none) (f : α → α) : updateA l k f = l := by
  induction l with
  | nil => simp [updateA]
  | cons p rest ih =>
    by_cases hp : p.1 = k
    · simp [lookupA, hp] at h
    · simp only [lookupA, hp, if_false] at h
      simp [updateA, hp, ih h]

theorem lookupA_updateA_self {α : Type} {l : List (String × α)} {k : String} {v : α}
    (h : lookupA l k = some v) (f : α → α) :
    lookupA (updateA l k f) k = some (f v) := by
  induction l with
  | nil => simp [lookupA] at h
  | cons p rest ih =>
    by_cases hp : p.1 = k
    · simp only [lookupA, hp, if_true] at h
      cases h
      simp [updateA, lookupA, hp]
    · simp only [lookupA, hp, if_false] at h
      simp [updateA, lookupA, hp, ih h]

theorem lookupA_updateA_ne {α : Type} (l : List (String × α)) {k k' : String}
    (h : k' ≠ k) (f : α → α) : lookupA (updateA l k f) k' = lookupA l k' := by
  induction l with
  | nil => simp [updateA]
  | cons p rest ih =>
    by_cases hp : p.1 = k
    · have hk : ¬ k = k' := fun e => h e.symm
      simp [updateA, lookupA, hp, hk]
    · by_cases hq : p.1 = k'
      · simp [updateA, lookupA, hp, hq, h]
      · simp [updateA, lookupA, hp, hq, ih]

theorem updateA_eq_self {α : Type} {l : List (String × α)} {k : String} {v : α}
    {f : α → α} (h : lookupA l k = some v) (hv : f v = v) : updateA l k f = l := by
  induction l with
  | nil => simp [lookupA] at h
  | cons p rest ih =>
    by_cases hp : p.1 = k
    · simp only [lookupA, hp, if_true] at h
      cases h
      simp only [updateA, hp, if_true, hv]
      rw [← hp]
    · simp only [lookupA, hp, if_false] at h
      simp [updateA, hp, ih h]

theorem updateA_append_new {α : Type} {l : List (String × α)} {k : String}
    (h : lookupA l k = none) (v : α) (f : α → α) :
    updateA (l ++ [(k, v)]) k f = l ++ [(k, f v)] := by
  induction l with
  | nil => simp [updateA]
  | cons p rest ih =>
    by_cases hp : p.1 = k
    · simp [lookupA, hp] at h
    · simp only [lookupA, hp, if_false] at h
      simp [updateA, hp, ih h]

theorem mem_updateA {α : Type} {l : List (String × α)} {k : String} {f : α → α}
    {x : String × α} (h : x ∈ updateA l k f) :
    x ∈ l ∨ ∃ v, (k, v) ∈ l ∧ x = (k, f v) := by
  induction l with
  | nil => simp [updateA] at h
  | cons p rest ih =>
    by_cases hp : p.1 = k
    · simp only [updateA, hp, if_true, List.mem_cons] at h
      rcases h with h | h
      · right; exact ⟨p.2, by simp [← hp, h]⟩
      · left; exact List.mem_cons_of_mem _ h
    · simp only [updateA, hp, if_false, List.mem_cons] at h
      rcases h with h | h
      · left; simp [h]
      · rcases ih h with h' | ⟨v, hv, hx⟩
        · left; exact List.mem_cons_of_mem _ h'
        · right; exact ⟨v, List.mem_cons_of_mem _ hv, hx⟩

theorem lookupA_map {α β : Type} (l : List (String × α)) (f : α → β) (k : String) :
    lookupA (l.map fun p => (p.1, f p.2)) k = (lookupA l k).map f := by
  induction l with
  | nil => simp [lookupA]
  | cons p rest ih =>
    by_cases hp : p.1 = k
    · simp [lookupA, hp]
    · simp [lookupA, hp, ih]

/-! ### Lemmas about one loop iteration -/

/-- The four personal fields of a working profile. -/
def personalB (s : StudentB) : String × String × String × String :=
  (s.hoTen, s.dienThoai, s.ngaySinh, s.ghiChu)

theorem personalB_addEnroll (parse : String → Option Nat) (r : Row) (s : StudentB) :
    personalB (addEnroll parse r s) = personalB s := by
  unfold addEnroll
  split <;> rfl

theorem keys_addEnroll_mono (parse : String → Option Nat) (r : Row) {s : StudentB}
    {k : String × String × String × String} (h : k ∈ s.keys) :
    k ∈ (addEnroll parse r s).keys := by
  unfold addEnroll
  split
  · exact h
  · simp [h]

theorem step_blank {parse : String → Option Nat} {st : List (String × StudentB)}
    {r : Row} (h : rowName r = "") : step parse st r = st := by
  simp [step, h]

theorem step_of_lookup_none (parse : String → Option Nat) {st : List (String × StudentB)}
    {r : Row} (h : rowName r ≠ "") (h0 : lookupA st (rowName r) = none) :
    step parse st r = st ++ [(rowName r, addEnroll parse r (mkStudent (rowName r) r))] := by
  simp only [step, h, if_false, hasKeyA, h0, Option.isSome_none, Bool.false_eq_true,
    ite_false]
  exact updateA_append_new h0 _ _

theorem step_of_lookup_some (parse : String → Option Nat) {st : List (String × StudentB)}
    {r : Row} {s : StudentB} (h : rowName r ≠ "") (h0 : lookupA st (rowName r) = some s) :
    step parse st r = updateA st (rowName r) (addEnroll parse r) := by
  simp [step, h, hasKeyA, h0]

theorem map_fst_step (parse : String → Option Nat) (st : List (String × StudentB)) (r : Row) :
    (step parse st r).map Prod.fst =
      if rowName r ≠ "" ∧ lookupA st (rowName r) = none
      then st.map Prod.fst ++ [rowName r] else st.map Prod.fst := by
  by_cases h : rowName r = ""
  · simp [step_blank h, h]
  · cases h0 : lookupA st (rowName r) with
    | none => rw [step_of_lookup_none parse h h0]; simp [h, h0]
    | some s => rw [step_of_lookup_some parse h h0, map_fst_updateA]; simp [h0]

theorem lookupA_step_ne (parse : String → Option Nat) {st : List (String × StudentB)}
    {r : Row} {n : String} (h : rowName r ≠ n) :
    lookupA (step parse st r) n = lookupA st n := by
  by_cases hb : rowName r = ""
  · rw [step_blank hb]
  · cases h0 : lookupA st (rowName r) with
    | none =>
      rw [step_of_lookup_none parse hb h0]
      cases hn : lookupA st n with
      | some v => exact lookupA_append_left hn
      | none => rw [lookupA_append_right hn]; simp [lookupA, h]
    | some s =>
      rw [step_of_lookup_some parse hb h0]
      exact lookupA_updateA_ne st (fun e => h e.symm) _

theorem lookupA_step_some (parse : String → Option Nat) (r : Row)
    {st : List (String × StudentB)} {n : String} {s : StudentB}
    (h : lookupA st n = some s) :
    ∃ s', lookupA (step parse st r) n = some s'
      ∧ personalB s' = personalB s
      ∧ ∀ k, k ∈ s.keys → k ∈ s'.keys := by
  by_cases hb : rowName r = ""
  · exact ⟨s, by rw [step_blank hb]; exact h, rfl, fun _ hk => hk⟩
  · by_cases hn : rowName r = n
    · subst hn
      rw [step_of_lookup_some parse hb h]
      exact ⟨addEnroll parse r s, lookupA_updateA_self h _,
        personalB_addEnroll parse r s, fun _ hk => keys_addEnroll_mono parse r hk⟩
    · refine ⟨s, ?_, rfl, fun _ hk => hk⟩
      rw [lookupA_step_ne parse hn]
      exact h

theorem lookupA_step_create (parse : String → Option Nat) {st : List (String × StudentB)}
    {r : Row} (h : rowName r ≠ "") (h0 : lookupA st (rowName r) = none) :
    lookupA (step parse st r) (rowName r)
      = some (addEnroll parse r (mkStudent (rowName r) r)) := by
  rw [step_of_lookup_none parse h h0, lookupA_append_right h0]
  simp [lookupA]

theorem rowKey_mem_after_step (parse : String → Option Nat)
    {st : List (String × StudentB)} {r : Row} (h : rowName r ≠ "") :
    ∃ s', lookupA (step parse st r) (rowName r) = some s' ∧ rowKey r ∈ s'.keys := by
  cases h0 : lookupA st (rowName r) with
  | none =>
    refine ⟨_, lookupA_step_create parse h h0, ?_⟩
    simp [addEnroll, mkStudent]
  | some s =>
    rw [step_of_lookup_some parse h h0]
    refine ⟨addEnroll parse r s, lookupA_updateA_self h0 _, ?_⟩
    by_cases hk : rowKey r ∈ s.keys
    · simp [addEnroll, hk]
    · simp [addEnroll, hk]

theorem step_of_seen_key (parse : String → Option Nat) {st : List (String × StudentB)}
    {r : Row} {s : StudentB} (h : rowName r ≠ "")
    (h0 : lookupA st (rowName r) = some s) (hk : rowKey r ∈ s.keys) :
    step parse st r = st := by
  rw [step_of_lookup_some parse h h0]
  exact updateA_eq_self h0 (by simp [addEnroll, hk])

/-! ### Lemmas about the whole loop -/

theorem foldl_lookup_some (parse : String → Option Nat) (rows : List Row)
    {st : List (String × StudentB)} {n : String} {s : StudentB}
    (h : lookupA st n = some s) :
    ∃ s', lookupA (rows.foldl (step parse) st) n = some s'
      ∧ personalB s' = personalB s
      ∧ ∀ k, k ∈ s.keys → k ∈ s'.keys := by
  induction rows generalizing st s with
  | nil => exact ⟨s, h, rfl, fun _ hk => hk⟩
  | cons r rest ih =>
    obtain ⟨s1, h1, hp1, hk1⟩ := lookupA_step_some parse r h
    obtain ⟨s2, h2, hp2, hk2⟩ := ih h1
    exact ⟨s2, h2, hp2.trans hp1, fun k hk => hk2 _ (hk1 _ hk)⟩

/-! ### Keys of the aggregated mapping -/

theorem mem_map_fst_foldl (parse : String → Option Nat) (rows : List Row) :
    ∀ (st : List (String × StudentB)) (n : String),
      n ∈ (rows.foldl (step parse) st).map Prod.fst
        ↔ n ∈ st.map Prod.fst ∨ (n ≠ "" ∧ ∃ r ∈ rows, rowName r = n) := by
  induction rows with
  | nil => intro st n; simp
  | cons r rest ih =>
    intro st n
    rw [List.foldl_cons, ih, map_fst_step]
    simp only [List.mem_cons, exists_eq_or_imp]
    by_cases h1 : rowName r = ""
    · rw [if_neg (by simp [h1])]
      constructor
      · rintro (h | ⟨hn, hr⟩)
        · exact Or.inl h
        · exact Or.inr ⟨hn, Or.inr hr⟩
      · rintro (h | ⟨hn, hr | hr⟩)
        · exact Or.inl h
        · exact absurd (hr.symm.trans h1) hn
        · exact Or.inr ⟨hn, hr⟩
    · by_cases h2 : lookupA st (rowName r) = none
      · rw [if_pos ⟨h1, h2⟩]
        constructor
        · rintro (h | ⟨hn, hr⟩)
          · rcases List.mem_append.mp h with h | h
            · exact Or.inl h
            · have : n = rowName r := by simpa using h
              exact Or.inr ⟨this ▸ h1, Or.inl this.symm⟩
          · exact Or.inr ⟨hn, Or.inr hr⟩
        · rintro (h | ⟨hn, hr | hr⟩)
          · exact Or.inl (List.mem_append.mpr (Or.inl h))
          · exact Or.inl (List.mem_append.mpr (Or.inr (by simp [hr])))
          · exact Or.inr ⟨hn, hr⟩
      · rw [if_neg (by simp [h2])]
        have hmem : rowName r ∈ st.map Prod.fst := by
          by_contra hc
          exact h2 (lookupA_eq_none_iff.mpr hc)
        constructor
        · rintro (h | ⟨hn, hr⟩)
          · exact Or.inl h
          · exact Or.inr ⟨hn, Or.inr hr⟩
        · rintro (h | ⟨hn, hr | hr⟩)
          · exact Or.inl h
          · exact Or.inl (hr ▸ hmem)
          · exact Or.inr ⟨hn, hr⟩

theorem nodup_map_fst_foldl (parse : String → Option Nat) (rows : List Row)
    {st : List (String × StudentB)} (h : (st.map Prod.fst).Nodup) :
    ((rows.foldl (step parse) st).map Prod.fst).Nodup := by
  induction rows generalizing st with
  | nil => exact h
  | cons r rest ih =>
    rw [List.foldl_cons]
    apply ih
    rw [map_fst_step]
    split
    · rename_i hc
      have : rowName r ∉ st.map Prod.fst := lookupA_eq_none_iff.mp hc.2
      simp [List.nodup_append, h, this]
    · exact h

theorem map_fst_pairmap {α β : Type} (l : List (String × α)) (f : α → β) :
    (l.map (fun p => (p.1, f p.2))).map Prod.fst = l.map Prod.fst := by
  induction l with
  | nil => rfl
  | cons p rest ih => simp [ih]

/-! ### The finalization sort -/

theorem pySortDesc_perm (l : List EnrollmentB) : List.Perm (pySortDesc l) l := by
  unfold pySortDesc
  exact List.Perm.trans (List.reverse_perm _)
    (List.Perm.trans (List.mergeSort_perm _ _) (List.reverse_perm _))

theorem length_pySortDesc (l : List EnrollmentB) : (pySortDesc l).length = l.length :=
  (pySortDesc_perm l).length_eq

theorem mem_pySortDesc {e : EnrollmentB} {l : List EnrollmentB} :
    e ∈ pySortDesc l ↔ e ∈ l :=
  (pySortDesc_perm l).mem_iff

theorem pySortDesc_singleton (e : EnrollmentB) : pySortDesc [e] = [e] := by
  simp [pySortDesc]

theorem mergeSort_pair {α : Type} (le : α → α → Bool) (a b : α) :
    List.mergeSort [a, b] le = if le a b then [a, b] else [b, a] := by
  rw [List.mergeSort]
  simp [List.splitInTwo_fst, List.splitInTwo_snd, List.merge]

theorem pySortDesc_pair (a b : EnrollmentB) :
    pySortDesc [a, b] = if leE b a then [a, b] else [b, a] := by
  unfold pySortDesc
  rw [show ([a, b] : List EnrollmentB).reverse = [b, a] from rfl, mergeSort_pair]
  split <;> rfl

/-! ### The dedup-key invariant -/

/-- The dedup key as recoverable from an enrollment's own fields
(`"Khóa Học"` is already stringified; the raw fields get `str`). -/
def eKeyB (e : EnrollmentB) : String × String × String × String :=
  (e.khoaHoc, pyStr e.lop, pyStr e.tuNgay, pyStr e.denNgay)

theorem eKeyB_mkEnrollment (parse : String → Option Nat) (r : Row) :
    eKeyB (mkEnrollment parse r) = rowKey r := rfl

/-- Invariant of the loop: each student's seen-key set lists exactly the
keys of its history entries, in order and without duplicates. -/
def KeysInv (st : List (String × StudentB)) : Prop :=
  ∀ x ∈ st, (x : String × StudentB).2.keys = x.2.hist.map eKeyB ∧ x.2.keys.Nodup

theorem keysInv_step (parse : String → Option Nat) (r : Row)
    {st : List (String × StudentB)} (h : KeysInv st) : KeysInv (step parse st r) := by
  by_cases hb : rowName r = ""
  · rw [step_blank hb]; exact h
  · cases h0 : lookupA st (rowName r) with
    | none =>
      rw [step_of_lookup_none parse hb h0]
      intro x hx
      rcases List.mem_append.mp hx with hx | hx
      · exact h x hx
      · have hx' : x = (rowName r, addEnroll parse r (mkStudent (rowName r) r)) := by
          simpa using hx
        subst hx'
        simp [addEnroll, mkStudent, eKeyB_mkEnrollment]
    | some s =>
      rw [step_of_lookup_some parse hb h0]
      intro x hx
      rcases mem_updateA hx with hx | ⟨v, hv, rfl⟩
      · exact h x hx
      · obtain ⟨hkeys, hnd⟩ := h _ hv
        dsimp only at hkeys hnd
        by_cases hk : rowKey r ∈ v.keys
        · simpa [addEnroll, hk] using ⟨hkeys, hnd⟩
        · have he : addEnroll parse r v =
              { v with keys := v.keys ++ [rowKey r], hist := v.hist ++ [mkEnrollment parse r] } := by
            simp [addEnroll, hk]
          refine ⟨?_, ?_⟩
          · rw [he]
            simp [hkeys, eKeyB_mkEnrollment]
          · rw [he]
            simp [List.nodup_append, hnd, hk]

theorem keysInv_foldl (parse : String → Option Nat) (rows : List Row)
    {st : List (String × StudentB)} (h : KeysInv st) :
    KeysInv (rows.foldl (step parse) st) := by
  induction rows generalizing st with
  | nil => exact h
  | cons r rest ih => exact ih (keysInv_step parse r h)

theorem keysInv_aggregateB (parse : String → Option Nat) (rows : List Row) :
    KeysInv (aggregateB parse rows) :=
  keysInv_foldl parse rows (by intro x hx; simp at hx)

/-- The raw field tuple of a finalized enrollment. -/
def eTuple (e : Enrollment) : String × Option String × Option String × Option String :=
  (e.khoaHoc, e.lop, e.tuNgay, e.denNgay)

/-- The raw field tuple of a working enrollment. -/
def eTupleB (e : EnrollmentB) : String × Option String × Option String × Option String :=
  (e.khoaHoc, e.lop, e.tuNgay, e.denNgay)

/-- Stringifying a raw tuple gives the dedup key. -/
def keyOfTuple (t : String × Option String × Option String × Option String) :
    String × String × String × String :=
  (t.1, pyStr t.2.1, pyStr t.2.2.1, pyStr t.2.2.2)

theorem hist_tuples_nodup (parse : String → Option Nat) (rows : List Row)
    {x : String × Student} (hx : x ∈ transform_data parse rows) :
    (x.2.hist.map eTuple).Nodup := by
  obtain ⟨p, hp, hpx⟩ : ∃ p ∈ aggregateB parse rows, (p.1, finalizeStudent p.2) = x := by
    simpa [transform_data] using hx
  obtain ⟨hkeys, hnd⟩ := keysInv_aggregateB parse rows p hp
  have h1 : (p.2.hist.map eKeyB).Nodup := hkeys ▸ hnd
  have h2 : (p.2.hist.map eTupleB).Nodup := by
    apply List.Nodup.of_map keyOfTuple
    rw [List.map_map]
    exact h1
  have h3 : ((pySortDesc p.2.hist).map eTupleB).Nodup :=
    (((pySortDesc_perm p.2.hist).map eTupleB).nodup_iff).mpr h2
  have h4 : (((pySortDesc p.2.hist).map dropParsed).map eTuple).Nodup := by
    rw [List.map_map]
    exact h3
  rw [← hpx]
  exact h4

/-! ### Dropping a later duplicate row -/

theorem foldl_key_mono (parse : String → Option Nat) (rows : List Row)
    {st : List (String × StudentB)} {n : String} {s : StudentB}
    {k : String × String × String × String}
    (h : lookupA st n = some s) (hk : k ∈ s.keys) :
    ∃ s', lookupA (rows.foldl (step parse) st) n = some s' ∧ k ∈ s'.keys := by
  obtain ⟨s', h', _, hmono⟩ := foldl_lookup_some parse rows h
  exact ⟨s', h', hmono k hk⟩

theorem foldl_step_drop_dup (parse : String → Option Nat) (l2 l3 : List Row)
    {st : List (String × StudentB)} {r' : Row} {s : StudentB}
    (hb : rowName r' ≠ "") (h : lookupA st (rowName r') = some s)
    (hk : rowKey r' ∈ s.keys) :
    (l2 ++ r' :: l3).foldl (step parse) st = (l2 ++ l3).foldl (step parse) st := by
  rw [List.foldl_append, List.foldl_append, List.foldl_cons]
  obtain ⟨s', h', hk'⟩ := foldl_key_mono parse l2 h hk
  rw [step_of_seen_key parse hb h' hk']

theorem aggregateB_drop_dup (parse : String → Option Nat) (l1 l2 l3 : List Row)
    {r r' : Row} (hn : rowName r' = rowName r) (hk : rowKey r' = rowKey r) :
    aggregateB parse (l1 ++ r :: (l2 ++ r' :: l3))
      = aggregateB parse (l1 ++ r :: (l2 ++ l3)) := by
  by_cases hb : rowName r = ""
  · have hb' : rowName r' = "" := hn.trans hb
    unfold aggregateB
    simp only [List.foldl_append, List.foldl_cons, step_blank hb, step_blank hb']
  · unfold aggregateB
    rw [List.foldl_append, List.foldl_cons]
    conv_rhs => rw [List.foldl_append, List.foldl_cons]
    obtain ⟨s, hs, hkey⟩ :=
      @rowKey_mem_after_step parse (l1.foldl (step parse) []) r hb
    exact foldl_step_drop_dup parse l2 l3 (by rw [hn]; exact hb)
      (by rw [hn]; exact hs) (by rw [hk]; exact hkey)

/-! ### Personal fields come from the first row of a student -/

theorem lookupA_transform (parse : String → Option Nat) (rows : List Row) (n : String) :
    lookupA (transform_data parse rows) n
      = (lookupA (aggregateB parse rows) n).map finalizeStudent := by
  unfold transform_data
  exact lookupA_map _ _ _

theorem foldl_first_row_personal (parse : String → Option Nat) (rows : List Row)
    {n : String} (hn : n ≠ "") :
    ∀ (st : List (String × StudentB)), lookupA st n = none →
      ∀ {r0 : Row}, rows.find? (fun rr => rowName rr == n) = some r0 →
      ∃ s', lookupA (rows.foldl (step parse) st) n = some s'
        ∧ personalB s' = (n, pyStrip (pyStr r0.dienThoai),
            pyStrip (pyStr r0.ngaySinh), pyStrip (pyStr r0.ghiChu)) := by
  induction rows with
  | nil =>
    intro st _ r0 hf
    simp [List.find?] at hf
  | cons r rest ih =>
    intro st h0 r0 hf
    by_cases hr : rowName r = n
    · have hr0 : r0 = r := by
        rw [List.find?_cons_of_pos _ (by simp [hr])] at hf
        exact (Option.some.inj hf).symm
      subst hr0
      have hbr : rowName r0 ≠ "" := by rw [hr]; exact hn
      have hsn : lookupA st (rowName r0) = none := by rw [hr]; exact h0
      rw [List.foldl_cons]
      have hcreate : lookupA (step parse st r0) n
          = some (addEnroll parse r0 (mkStudent (rowName r0) r0)) := by
        rw [← hr]
        exact lookupA_step_create parse hbr hsn
      obtain ⟨s', hs', hp', _⟩ := foldl_lookup_some parse rest hcreate
      refine ⟨s', hs', ?_⟩
      rw [hp', personalB_addEnroll]
      simp [mkStudent, personalB, hr]
    · have hf' : rest.find? (fun rr => rowName rr == n) = some r0 := by
        rwa [List.find?_cons_of_neg _ (by simp [hr])] at hf
      rw [List.foldl_cons]
      exact ih (step parse st r) (by rw [lookupA_step_ne parse hr]; exact h0) hf'

/-! ### Class filtering -/

theorem matchesClass_iff {c : String} {e : Enrollment} :
    matchesClass c e = true ↔ e.lop = some c := by
  unfold matchesClass
  cases e.lop with
  | none => simp
  | some s => simp [beq_iff_eq]

theorem aggregateB_singleton (parse : String → Option Nat) (r : Row) :
    aggregateB parse [r] = step parse [] r := rfl

/-! ### Claim theorems -/

/-- Claim C5: for every aggregated mapping and class name `c`,
`get_students_by_class` returns exactly the profiles having at least one
history entry with class label `c`; each returned profile's history is the
order-preserving filter of its original (already sorted) history to the
entries whose label equals `c`, so every returned entry has label `c` and no
re-sorting happens (the filtered history is a sublist of the original). -/
theorem c5_students_by_class (students : List (String × Student)) (c : String) :
    (∀ x ∈ get_students_by_class students c,
        x.2.hist ≠ [] ∧ ∀ e ∈ x.2.hist, e.lop = some c)
  ∧ (∀ (n : String) (sp : Student), (n, sp) ∈ get_students_by_class students c ↔
        ∃ sp0 : Student, (n, sp0) ∈ students
          ∧ sp0.hist.filter (matchesClass c) ≠ []
          ∧ sp = { hoTen := sp0.hoTen, dienThoai := sp0.dienThoai,
                   ngaySinh := sp0.ngaySinh, ghiChu := sp0.ghiChu,
                   hist := sp0.hist.filter (matchesClass c) })
  ∧ (∀ x ∈ get_students_by_class students c,
        ∃ sp0 : Student, (x.1, sp0) ∈ students ∧ x.2.hist.Sublist sp0.hist) := by
  have hiff : ∀ (n : String) (sp : Student),
      (n, sp) ∈ get_students_by_class students c ↔
        ∃ sp0 : Student, (n, sp0) ∈ students
          ∧ sp0.hist.filter (matchesClass c) ≠ []
          ∧ sp = { hoTen := sp0.hoTen, dienThoai := sp0.dienThoai,
                   ngaySinh := sp0.ngaySinh, ghiChu := sp0.ghiChu,
                   hist := sp0.hist.filter (matchesClass c) } := by
    intro n sp
    unfold get_students_by_class
    rw [List.mem_filterMap]
    constructor
    · rintro ⟨p, hp, hf⟩
      by_cases he : (p.2.hist.filter (matchesClass c)).isEmpty
      · simp [he] at hf
      · simp only [he, if_false, Bool.false_eq_true] at hf
        obtain ⟨h1, h2⟩ := Prod.mk.injEq .. ▸ Option.some.inj hf
        refine ⟨p.2, ?_, ?_, h2.symm⟩
        · rw [← h1]
          exact hp
        · intro hnil
          rw [hnil] at he
          exact he rfl
    · rintro ⟨sp0, hmem, hne, rfl⟩
      refine ⟨(n, sp0), hmem, ?_⟩
      have he : (sp0.hist.filter (matchesClass c)).isEmpty = false := by
        cases hq : sp0.hist.filter (matchesClass c) with
        | nil => exact absurd hq hne
        | cons a l => rfl
      simp [he]
  refine ⟨?_, hiff, ?_⟩
  · intro x hx
    have hx' : (x.1, x.2) ∈ get_students_by_class students c := by
      rw [Prod.mk.eta]
      exact hx
    obtain ⟨sp0, _, hne, hsp⟩ := (hiff x.1 x.2).mp hx'
    constructor
    · rw [hsp]
      exact hne
    · intro e he
      rw [hsp] at he
      exact matchesClass_iff.mp (List.mem_filter.mp he).2
  · intro x hx
    have hx' : (x.1, x.2) ∈ get_students_by_class students c := by
      rw [Prod.mk.eta]
      exact hx
    obtain ⟨sp0, hmem, _, hsp⟩ := (hiff x.1 x.2).mp hx'
    refine ⟨sp0, hmem, ?_⟩
    rw [hsp]
    exact List.filter_sublist _

/-- Claim C7: a non-empty payload on which the decoder (`json.loads`) fails
makes `display_grade_records` return normally, reporting the decode error
inline together with the offending payload — no exception escapes the
function's boundary; and the aggregator stores the payload verbatim in the
enclosing enrollment (`mkEnrollment` keeps `grades` untouched), so a bad
payload never discards or alters the entry it sits on. -/
theorem c7_decode_error_reported (jsonParse : String → Option (List GradeRec))
    (parse : String → Option Nat) (p : String) (r : Row)
    (hne : p ≠ "") (hbad : jsonParse p = none) :
    display_grade_records jsonParse (some p) = .ok (.decodeError p)
  ∧ (mkEnrollment parse r).grades = r.grades := by
  constructor
  · simp only [display_grade_records]
    rw [if_neg hne, hbad]
  · rfl

/-- Claim C8: for every student with at least one row whose stripped name is
the non-blank `n`, the finalized profile exists and its name and personal
fields are the stripped personal fields of the first such row; later rows'
personal fields are ignored. -/
theorem c8_first_row_personal (parse : String → Option Nat) (rows : List Row)
    (n : String) (r0 : Row) (hn : n ≠ "")
    (hfind : rows.find? (fun rr => rowName rr == n) = some r0) :
    ∃ p, lookupA (transform_data parse rows) n = some p
      ∧ p.hoTen = n
      ∧ p.dienThoai = pyStrip (pyStr r0.dienThoai)
      ∧ p.ngaySinh = pyStrip (pyStr r0.ngaySinh)
      ∧ p.ghiChu = pyStrip (pyStr r0.ghiChu) := by
  obtain ⟨s', hs', hp⟩ := foldl_first_row_personal parse rows hn [] rfl hfind
  have h1 : s'.hoTen = n := congrArg (fun t => t.1) hp
  have h2 : s'.dienThoai = pyStrip (pyStr r0.dienThoai) := congrArg (fun t => t.2.1) hp
  have h3 : s'.ngaySinh = pyStrip (pyStr r0.ngaySinh) := congrArg (fun t => t.2.2.1) hp
  have h4 : s'.ghiChu = pyStrip (pyStr r0.ghiChu) := congrArg (fun t => t.2.2.2) hp
  refine ⟨finalizeStudent s', ?_, h1, h2, h3, h4⟩
  rw [lookupA_transform]
  show (lookupA (rows.foldl (step parse) []) n).map finalizeStudent = _
  rw [hs']
  rfl

/-- Claim C6: a row whose stripped student name is blank contributes nothing
to the output (removing it leaves `transform_data` unchanged), and for every
input the produced mapping has pairwise distinct student keys, which are
exactly the distinct stripped non-blank student names occurring in the rows. -/
theorem c6_blank_rows_and_unique_profiles (parse : String → Option Nat)
    (l1 l2 : List Row) (r : Row) (h : pyStrip (pyStr r.ten) = "") :
    transform_data parse (l1 ++ r :: l2) = transform_data parse (l1 ++ l2)
  ∧ ∀ rows : List Row,
      ((transform_data parse rows).map Prod.fst).Nodup
    ∧ ∀ n, n ∈ (transform_data parse rows).map Prod.fst
        ↔ (n ≠ "" ∧ ∃ rr ∈ rows, pyStrip (pyStr rr.ten) = n) := by
  refine ⟨?_, ?_⟩
  · unfold transform_data aggregateB
    rw [List.foldl_append, List.foldl_cons, step_blank h, ← List.foldl_append]
  · intro rows
    have hkeys : (transform_data parse rows).map Prod.fst
        = (aggregateB parse rows).map Prod.fst := map_fst_pairmap _ _
    constructor
    · rw [hkeys]
      exact nodup_map_fst_foldl parse rows (by simp)
    · intro n
      rw [hkeys]
      unfold aggregateB
      rw [mem_map_fst_foldl]
      simp [rowName]

/-- Claim C3: no finalized profile holds two history entries with an
identical `(course_id, class_label, start_date, end_date)` tuple, and when a
later row of the same student repeats an earlier row's tuple the later row is
silently dropped: removing it from the input leaves the output unchanged. -/
theorem c3_no_duplicate_tuples (parse : String → Option Nat)
    (l1 l2 l3 : List Row) (r r' : Row)
    (hname : rowName r' = rowName r)
    (hcid : r'.class_id = r.class_id) (hlop : r'.tenLop = r.tenLop)
    (hsd : r'.start_date = r.start_date) (hed : r'.end_date = r.end_date) :
    (∀ (rows : List Row) (x : String × Student), x ∈ transform_data parse rows →
        (x.2.hist.map eTuple).Nodup)
  ∧ transform_data parse (l1 ++ r :: (l2 ++ r' :: l3))
      = transform_data parse (l1 ++ r :: (l2 ++ l3)) := by
  refine ⟨fun rows x hx => hist_tuples_nodup parse rows hx, ?_⟩
  have hk : rowKey r' = rowKey r := by
    simp [rowKey, hcid, hlop, hsd, hed]
  unfold transform_data
  rw [aggregateB_drop_dup parse l1 l2 l3 hname hk]

/-- Claim C9: a row whose `"Tên"` value is Python `None` is not discarded:
`str(None)` is the non-blank string `"None"`, so the row creates or extends
the profile keyed by the literal name `"None"`; on its own it yields a
profile with exactly one history entry. -/
theorem c9_none_name (parse : String → Option Nat) (rows : List Row) (r : Row)
    (hr : r.ten = none) (hmem : r ∈ rows) :
    "None" ∈ (transform_data parse rows).map Prod.fst
  ∧ ∃ p, lookupA (transform_data parse [r]) "None" = some p ∧ p.hist.length = 1 := by
  have hname : rowName r = "None" := by
    rw [rowName, hr]
    rfl
  constructor
  · have h1 : "None" ∈ (aggregateB parse rows).map Prod.fst :=
      (mem_map_fst_foldl parse rows [] "None").mpr
        (Or.inr ⟨by decide, ⟨r, hmem, hname⟩⟩)
    rw [show (transform_data parse rows).map Prod.fst
        = (aggregateB parse rows).map Prod.fst from map_fst_pairmap _ _]
    exact h1
  · have hb : rowName r ≠ "" := by
      rw [hname]
      decide
    have hcr := lookupA_step_create parse hb (rfl : lookupA [] (rowName r) = none)
    refine ⟨finalizeStudent (addEnroll parse r (mkStudent (rowName r) r)), ?_, ?_⟩
    · rw [lookupA_transform, ← hname, aggregateB_singleton, hcr]
      rfl
    · simp [finalizeStudent, addEnroll, mkStudent, pySortDesc_singleton]

/-- Claim C4 (amended): the dedup key is the tuple of the stringified — but
NOT trimmed — values of `class_id`, `Tên Lớp`, `start_date` and `end_date`
(`rowKey`), so two rows of the same student whose stringified key tuples
differ (for instance only by surrounding whitespace in a key field) are NOT
treated as duplicates: both enrollments are kept in the profile's history. -/
theorem c4_untrimmed_key_keeps_both (parse : String → Option Nat) (r r' : Row)
    (hname : rowName r' = rowName r) (hnb : rowName r ≠ "")
    (hkey : rowKey r' ≠ rowKey r) :
    ∃ p, lookupA (transform_data parse [r, r']) (rowName r) = some p
      ∧ p.hist.length = 2
      ∧ dropParsed (mkEnrollment parse r) ∈ p.hist
      ∧ dropParsed (mkEnrollment parse r') ∈ p.hist := by
  have hsB : step parse [] r
      = [(rowName r, addEnroll parse r (mkStudent (rowName r) r))] :=
    step_of_lookup_none parse hnb rfl
  have hlook : lookupA (step parse [] r) (rowName r')
      = some (addEnroll parse r (mkStudent (rowName r) r)) := by
    rw [hsB, hname]
    simp [lookupA]
  have hb' : rowName r' ≠ "" := by
    rw [hname]
    exact hnb
  have hstep2 : step parse (step parse [] r) r'
      = [(rowName r, addEnroll parse r' (addEnroll parse r (mkStudent (rowName r) r)))] := by
    rw [step_of_lookup_some parse hb' hlook, hsB, hname]
    simp [updateA]
  have hs2 : addEnroll parse r' (addEnroll parse r (mkStudent (rowName r) r))
      = { hoTen := rowName r, dienThoai := pyStrip (pyStr r.dienThoai),
          ngaySinh := pyStrip (pyStr r.ngaySinh), ghiChu := pyStrip (pyStr r.ghiChu),
          hist := [mkEnrollment parse r, mkEnrollment parse r'],
          keys := [rowKey r, rowKey r'] } := by
    simp [addEnroll, mkStudent, hkey]
  refine ⟨finalizeStudent (addEnroll parse r' (addEnroll parse r (mkStudent (rowName r) r))),
    ?_, ?_, ?_, ?_⟩
  · rw [lookupA_transform,
      show aggregateB parse [r, r'] = step parse (step parse [] r) r' from rfl, hstep2]
    simp [lookupA]
  · rw [hs2]
    simp [finalizeStudent, length_pySortDesc]
  · rw [hs2]
    simp only [finalizeStudent, List.mem_map]
    exact ⟨mkEnrollment parse r, mem_pySortDesc.mpr (by simp), rfl⟩
  · rw [hs2]
    simp only [finalizeStudent, List.mem_map]
    exact ⟨mkEnrollment parse r', mem_pySortDesc.mpr (by simp), rfl⟩

/-! ### Concrete instances used for evaluation -/

/-- One concrete instance of the `parse` parameter (`pd.to_datetime` with
`dayfirst=True, errors="coerce"`), defined on the date strings that appear in
the concrete evaluations below; every other string is unparseable (`NaT`). -/
def toyDateParse (s : String) : Option Nat :=
  if s = "01/01/2020" then some 20200101
  else if s = "01/01/2022" then some 20220101
  else if s = "01/06/2024" then some 20240601
  else if s = "01/12/2024" then some 20241201
  else none

/-- One concrete instance of the `jsonParse` parameter (`json.loads`
restricted to lists of grade records): it decodes only the literal empty
list; on every other string — in particular `"not json"` and the
whitespace-only `" "` — the decode fails (`none`). -/
def toyJsonDecode (s : String) : Option (List GradeRec) :=
  if s = "[]" then some [] else none

/-- A concrete input row for student "An". -/
def baseRow : Row :=
  { ten := some "An"
    dienThoai := some "0901234567"
    ngaySinh := some "01/01/2000"
    ghiChu := some "ghi chu"
    class_id := some "C1"
    tenLop := some "L1"
    start_date := some "01/06/2024"
    end_date := some "01/12/2024"
    daThanhToan := some "Hoàn thành HP"
    grades := some "[]"
    stt := some "1" }

/-- Same enrollment as `baseRow` with the `class_id` carrying a trailing
space: the trimmed key fields coincide with `baseRow`'s. -/
def c4Row2 : Row := { baseRow with class_id := some "C1 ", stt := some "2" }

/-- An "An" row with an unparseable start date. -/
def c2RowBad : Row :=
  { baseRow with class_id := some "CB", start_date := some "not-a-date" }

/-- An "An" row with a parseable start date. -/
def c2RowGood : Row :=
  { baseRow with class_id := some "CG", start_date := some "01/06/2024" }

/-- A row whose student name strips to the empty string. -/
def blankRow : Row := { baseRow with ten := some "   " }

/-- A later "An" row with different personal fields and a fresh course. -/
def laterRow : Row :=
  { baseRow with
    dienThoai := some "0999",
    ngaySinh := some "02/02/2002",
    ghiChu := some "khac",
    class_id := some "C9" }

/-- A row whose `"Tên"` value is Python `None`. -/
def noneNameRow : Row := { baseRow with ten := none }

/-! ### Code-bug evaluations and the C4 counterexample -/

/-- Claim C1 (code bug at line 168 of `src/app.py`): for the empty-string and
`None` payloads the blank branch fires, writes the empty-state message and
then executes the undefined name `returna`, so the call raises `NameError`
instead of returning an empty result; and a whitespace-only payload is truthy
and not null, escapes the blank branch, and is reported as a decode error
rather than treated as empty. -/
theorem c1_blank_payload_raises :
    display_grade_records toyJsonDecode (some "") = .error (.nameError "returna")
  ∧ display_grade_records toyJsonDecode none = .error (.nameError "returna")
  ∧ display_grade_records toyJsonDecode (some " ") = .ok (.decodeError " ") :=
  ⟨rfl, rfl, rfl⟩

/-- Claim C2 (code bug): `pd.NaT` is truthy, so the sort key
`x.get("parsed_start") or pd.Timestamp.min` stays `NaT` for an unparseable
start date, and every ordering comparison involving `NaT` is `False`.  At
this two-row input the finalized history keeps the unparseable
`"not-a-date"` entry FIRST, before the parseable `"01/06/2024"` entry,
whereas the claim requires unparseable dates to sort last (as the minimum
representable date). -/
theorem c2_unparseable_date_first :
    (lookupA (transform_data toyDateParse [c2RowBad, c2RowGood]) "An").map
        (fun p => p.hist.map (fun e => e.tuNgay))
      = some [some "not-a-date", some "01/06/2024"] := by
  show some (((pySortDesc [mkEnrollment toyDateParse c2RowBad,
        mkEnrollment toyDateParse c2RowGood]).map dropParsed).map (fun e => e.tuNgay))
    = some [some "not-a-date", some "01/06/2024"]
  rw [pySortDesc_pair]
  rfl

/-- Claim C10 (code bug): the comparison driving the history sort (`leKey`,
"`b` is not smaller than `a`" on `parsed_start` keys with `NaT` comparing
`False` to everything) is not transitive: `Timestamp 5 ≼ NaT` and
`NaT ≼ Timestamp 3` both hold while `Timestamp 5 ≼ Timestamp 3` fails.
Python's stable-sort guarantee therefore does not apply to equal parsed
dates once `NaT` keys are interleaved, and CPython in fact reorders
equal-date entries on such inputs. -/
theorem c10_sort_comparison_not_transitive :
    leKey (some 5) none = true ∧ leKey none (some 3) = true
  ∧ leKey (some 5) (some 3) = false :=
  ⟨rfl, rfl, rfl⟩

/-- Claim C4 counterexample: the two "An" rows `baseRow` and `c4Row2` differ
in a key field only by a trailing space (`"C1"` vs `"C1 "`), so their
trimmed, stringified key fields coincide; yet the profile keeps BOTH
enrollments (history length 2, not 1), refuting the claim that the dedup key
is built from trimmed values and that such rows are treated as duplicates. -/
theorem c4_counterexample :
    pyStrip (pyStr c4Row2.class_id) = pyStrip (pyStr baseRow.class_id)
  ∧ (lookupA (transform_data toyDateParse [baseRow, c4Row2]) "An").map
      (fun p => p.hist.length) = some 2 := by
  refine ⟨rfl, ?_⟩
  show some (((pySortDesc [mkEnrollment toyDateParse baseRow,
        mkEnrollment toyDateParse c4Row2]).map dropParsed).length) = some 2
  rw [List.length_map, length_pySortDesc]
  rfl

/-! ### Witnesses instantiating the hypothesised theorems -/

/-- Witness for C3: two "An" rows equal in all four key fields and differing
only in the irrelevant `STT` field, evaluated with empty context lists. -/
theorem c3_no_duplicate_tuples_witness :
    (∀ (rows : List Row) (x : String × Student), x ∈ transform_data toyDateParse rows →
        (x.2.hist.map eTuple).Nodup)
  ∧ transform_data toyDateParse
        ([] ++ baseRow :: ([] ++ { baseRow with stt := some "2" } :: []))
      = transform_data toyDateParse ([] ++ baseRow :: ([] ++ [])) :=
  c3_no_duplicate_tuples toyDateParse [] [] [] baseRow { baseRow with stt := some "2" }
    rfl rfl rfl rfl rfl

/-- Witness for C4 (amended) at the pair whose keys differ only by a
trailing space in `class_id`. -/
theorem c4_untrimmed_key_keeps_both_witness :
    ∃ p, lookupA (transform_data toyDateParse [baseRow, c4Row2]) (rowName baseRow) = some p
      ∧ p.hist.length = 2
      ∧ dropParsed (mkEnrollment toyDateParse baseRow) ∈ p.hist
      ∧ dropParsed (mkEnrollment toyDateParse c4Row2) ∈ p.hist :=
  c4_untrimmed_key_keeps_both toyDateParse baseRow c4Row2 rfl (by decide) (by decide)

/-- Witness for C6: a whitespace-only-name row inserted before one "An" row
changes nothing. -/
theorem c6_blank_rows_and_unique_profiles_witness :
    transform_data toyDateParse ([] ++ blankRow :: [baseRow])
      = transform_data toyDateParse ([] ++ [baseRow])
  ∧ ∀ rows : List Row,
      ((transform_data toyDateParse rows).map Prod.fst).Nodup
    ∧ ∀ n, n ∈ (transform_data toyDateParse rows).map Prod.fst
        ↔ (n ≠ "" ∧ ∃ rr ∈ rows, pyStrip (pyStr rr.ten) = n) :=
  c6_blank_rows_and_unique_profiles toyDateParse [] [baseRow] blankRow (by decide)

/-- Witness for C7 at the payload `"not json"`. -/
theorem c7_decode_error_reported_witness :
    display_grade_records toyJsonDecode (some "not json")
      = .ok (.decodeError "not json")
  ∧ (mkEnrollment toyDateParse baseRow).grades = baseRow.grades :=
  c7_decode_error_reported toyJsonDecode toyDateParse "not json" baseRow (by decide) rfl

/-- Witness for C8: the first "An" row's personal fields win over
`laterRow`'s. -/
theorem c8_first_row_personal_witness :
    ∃ p, lookupA (transform_data toyDateParse [baseRow, laterRow]) "An" = some p
      ∧ p.hoTen = "An"
      ∧ p.dienThoai = pyStrip (pyStr baseRow.dienThoai)
      ∧ p.ngaySinh = pyStrip (pyStr baseRow.ngaySinh)
      ∧ p.ghiChu = pyStrip (pyStr baseRow.ghiChu) :=
  c8_first_row_personal toyDateParse [baseRow, laterRow] "An" baseRow (by decide) rfl

/-- Witness for C9 at a single row with a `None` name. -/
theorem c9_none_name_witness :
    "None" ∈ (transform_data toyDateParse [noneNameRow]).map Prod.fst
  ∧ ∃ p, lookupA (transform_data toyDateParse [noneNameRow]) "None" = some p
      ∧ p.hist.length = 1 :=
  c9_none_name toyDateParse [noneNameRow] noneNameRow rfl (List.mem_cons_self _ _)
